import Mathlib

/-!
Verification of the FaceGallery identity clustering and matching core.

The definitions below are a shallow embedding of the Python source:
`src/face_engine/clusterer.py` (greedy leader clustering and per-person
voting match), `src/core/scanner.py` (scan orchestration with cooperative
cancellation) and the face-assignment operations of `src/core/app_core.py`
together with `src/db/manager.py` / `src/db/schema.py`.

Embedding vectors are modelled as lists of real numbers; NumPy float
arithmetic is idealised as real arithmetic.  Fallible values (`None` in
Python) are modelled with `Option`.
-/

namespace FaceGallery

/-! ## Vector primitives (NumPy operations used by the clusterer) -/

/-- Dot product of two equal-length vectors (`np.dot`). -/
def dot (a b : List ℝ) : ℝ := (List.zipWith (fun x y => x * y) a b).sum

/-- Euclidean norm (`np.linalg.norm`). -/
noncomputable def norm2 (v : List ℝ) : ℝ := Real.sqrt ((v.map fun x => x * x).sum)

/-- Normalisation as performed in the source on stored rows: zero norms are
replaced by `1.0` before dividing (`norms[norms == 0] = 1.0; embs / norms`). -/
noncomputable def rowNormalize (v : List ℝ) : List ℝ :=
  v.map fun x => x / (if norm2 v = 0 then 1 else norm2 v)

/-- `np.min` of a list of distances; junk value `0` on the empty list (the
source only applies it to nonempty per-person distance lists). -/
noncomputable def listMin : List ℝ → ℝ
  | [] => 0
  | x :: xs => xs.foldl min x

/-- `np.argmin`: index of the first occurrence of the minimum value. -/
noncomputable def argmin (l : List ℝ) : ℕ := l.indexOf (listMin l)

/-! ## `cluster_embeddings` (clusterer.py lines 32-81) -/

/-- The source's leader update after an insertion that brought the cluster to
size `n`: elementwise `leader * (n - 1) / n + current / n`, then renormalised
when the resulting norm is positive (`if lnorm > 0`). -/
noncomputable def leaderUpdate (n : ℕ) (L cur : List ℝ) : List ℝ :=
  let updated := List.zipWith (fun x y => x * ((n : ℝ) - 1) / n + y / n) L cur
  if 0 < norm2 updated then updated.map fun x => x / norm2 updated else updated

/-- One iteration of the clustering loop of `cluster_embeddings`: `st` is the
pair (clusters, leaders), `p` is `(idx, current)` with `current` the already
normalised embedding at index `idx`. -/
noncomputable def clusterStep (threshold : ℝ) (st : List (List ℕ) × List (List ℝ))
    (p : ℕ × List ℝ) : List (List ℕ) × List (List ℝ) :=
  match st.2 with
  | [] => (st.1 ++ [[p.1]], st.2 ++ [p.2])
  | _ :: _ =>
    let dists := st.2.map fun L => 1 - dot L p.2
    let b := argmin dists
    if dists.getD b 0 < threshold then
      let newCluster := st.1.getD b [] ++ [p.1]
      (st.1.set b newCluster, st.2.set b (leaderUpdate newCluster.length (st.2.getD b []) p.2))
    else
      (st.1 ++ [[p.1]], st.2 ++ [p.2])

/-- `cluster_embeddings(embeddings, threshold)`: greedy leader-based clustering
over the input order; the result is the list of clusters of input indices. -/
noncomputable def cluster_embeddings (embeddings : List (List ℝ)) (threshold : ℝ) :
    List (List ℕ) :=
  match embeddings with
  | [] => []
  | _ :: _ =>
    ((embeddings.map rowNormalize).enum.foldl (clusterStep threshold) ([], [])).1

/-! ## Specification-level clustering (spec sections 4.1-4.2), for refinement -/

/-- Modelled from the spec, section 4.1: `normalize(v)` divides by the Euclidean
norm and returns `v` unchanged when the norm is zero. -/
noncomputable def normalizeSpec (v : List ℝ) : List ℝ :=
  if norm2 v = 0 then v else v.map fun x => x / norm2 v

/-- Modelled from the spec, section 4.2, step 3: append to the nearest cluster
when the minimum distance is strictly below the threshold, updating the leader
to `normalize((leader * (n-1) + current) / n)`; otherwise start a new cluster. -/
noncomputable def clusterStepSpec (threshold : ℝ) (st : List (List ℕ) × List (List ℝ))
    (p : ℕ × List ℝ) : List (List ℕ) × List (List ℝ) :=
  match st.2 with
  | [] => (st.1 ++ [[p.1]], st.2 ++ [p.2])
  | _ :: _ =>
    let dists := st.2.map fun L => 1 - dot L p.2
    if listMin dists < threshold then
      let b := argmin dists
      let newCluster := st.1.getD b [] ++ [p.1]
      let n : ℕ := newCluster.length
      let updated := List.zipWith (fun x y => (x * ((n : ℝ) - 1) + y) / n)
        (st.2.getD b []) p.2
      (st.1.set b newCluster, st.2.set b (normalizeSpec updated))
    else
      (st.1 ++ [[p.1]], st.2 ++ [p.2])

/-- Modelled from the spec, section 4.2: the clustering contract, with every
input normalised once and the leader update in the spec's arithmetic form. -/
noncomputable def clusterSpec (embeddings : List (List ℝ)) (threshold : ℝ) :
    List (List ℕ) :=
  match embeddings with
  | [] => []
  | _ :: _ =>
    ((embeddings.map normalizeSpec).enum.foldl (clusterStepSpec threshold) ([], [])).1

/-! ## `find_best_match` (clusterer.py lines 84-157) -/

/-- Query normalisation `qn = query / norm(query)` (only used under the guard
`norm(query) != 0`). -/
noncomputable def qNormalize (q : List ℝ) : List ℝ := q.map fun x => x / norm2 q

/-- The per-sample cosine distances `(person_id, 1 - dot(normalized_row, qn))`,
in input order. -/
noncomputable def distList (q : List ℝ) (known : List (ℤ × List ℝ)) : List (ℤ × ℝ) :=
  known.map fun pe => (pe.1, 1 - dot (rowNormalize pe.2) (qNormalize q))

/-- `dists[person_ids == pid]`: the distances of the samples of one person. -/
noncomputable def personDists (q : List ℝ) (known : List (ℤ × List ℝ)) (pid : ℤ) :
    List ℝ :=
  ((distList q known).filter fun de => decide (de.1 = pid)).map Prod.snd

/-- `vote_threshold = min(threshold * 2.0, 0.80)`. -/
noncomputable def voteThreshold (t : ℝ) : ℝ := min (t * 2) 0.8

/-- `min_dist` of one person: the smallest distance among its samples. -/
noncomputable def minDist (q : List ℝ) (known : List (ℤ × List ℝ)) (pid : ℤ) : ℝ :=
  listMin (personDists q known pid)

/-- `total_count`: how many samples the person has. -/
noncomputable def totalCount (q : List ℝ) (known : List (ℤ × List ℝ)) (pid : ℤ) : ℕ :=
  (personDists q known pid).length

/-- `close_count`: how many of the person's samples are within the vote
threshold of the query. -/
noncomputable def closeCount (q : List ℝ) (known : List (ℤ × List ℝ)) (t : ℝ)
    (pid : ℤ) : ℕ :=
  ((personDists q known pid).filter fun d => decide (d < voteThreshold t)).length

/-- The majority-support filter: person `pid` is rejected outright when it has
at least 3 samples and strictly less than 30 percent of them are close. -/
noncomputable def voteRejected (q : List ℝ) (known : List (ℤ × List ℝ)) (t : ℝ)
    (pid : ℤ) : Prop :=
  3 ≤ totalCount q known pid ∧
    (closeCount q known t pid : ℝ) / (totalCount q known pid : ℝ) < 0.3

open Classical in
/-- One iteration of the per-person loop of `find_best_match`, updating the
running `(best_person, best_min_dist)` pair. -/
noncomputable def matchStep (q : List ℝ) (known : List (ℤ × List ℝ)) (t : ℝ)
    (best : Option ℤ × ℝ) (pid : ℤ) : Option ℤ × ℝ :=
  if voteRejected q known t pid then best
  else if minDist q known pid < best.2 then (some pid, minDist q known pid) else best

/-- `np.unique(person_ids)`: the person ids, deduplicated and sorted ascending. -/
def uniquePids (known : List (ℤ × List ℝ)) : List ℤ :=
  (known.map Prod.fst).toFinset.sort (fun a b => a ≤ b)

/-- `find_best_match(query_emb, known_embeddings, threshold)`: `none` on a null
query, an empty known list or a zero-norm query; otherwise the fold of
`matchStep` over the sorted unique person ids, started at `(None, threshold)`. -/
noncomputable def find_best_match (query : Option (List ℝ))
    (known : List (ℤ × List ℝ)) (t : ℝ) : Option ℤ :=
  match query, known with
  | none, _ => none
  | some _, [] => none
  | some q, _ :: _ =>
    if norm2 q = 0 then none
    else ((uniquePids known).foldl (matchStep q known t) (none, t)).1

/-! ## Scan orchestration (scanner.py `PhotoScanner.scan`) -/

/-- Outcome of the per-file body of the scan loop: either the file was
(re)indexed with face detection (counting toward `added`, with the reported
numbers of faces found and auto-assigned), or it was skipped (unchanged photo
or a caught per-file exception). -/
inductive FileResult where
  | added (faces matched : ℕ)
  | skipped

/-- The summary dict returned by `scan`. -/
structure ScanSummary where
  total : ℕ
  added : ℕ
  skipped : ℕ
  faces : ℕ
  matched : ℕ
deriving DecidableEq

/-- The scan loop: before each file the cancellation callback is polled (the
argument is the number of files processed so far); on `true` the loop breaks.
Returns the list of files whose per-file body ran (in order) and the four
counters `added, skipped, faces, matched`. -/
def scanLoop {α : Type} (outcome : α → FileResult) (cancelled : ℕ → Bool) :
    List α → ℕ → List α × ℕ × ℕ × ℕ × ℕ
  | [], _ => ([], 0, 0, 0, 0)
  | f :: rest, n =>
    if cancelled n then ([], 0, 0, 0, 0)
    else
      match scanLoop outcome cancelled rest (n + 1), outcome f with
      | (ps, a, s, fc, m), .added faces matched => (f :: ps, a + 1, s, fc + faces, m + matched)
      | (ps, a, s, fc, m), .skipped => (f :: ps, a, s + 1, fc, m)

/-- Result of one `scan` run: the summary, the files that were actually
processed (reached the per-file body, hence may show detection side effects),
and the folders passed to `mark_folder_scanned` at the end. -/
structure ScanResult (α β : Type) where
  summary : ScanSummary
  processed : List α
  markedScanned : List β

/-- `PhotoScanner.scan(folders, ...)`: enumerate all images of all folders,
run the cancellable loop, then mark every requested folder as scanned
(the source runs the marking loop unconditionally, after a break as well). -/
def scan {α β : Type} (folders : List β) (walkImages : β → List α)
    (outcome : α → FileResult) (cancelled : ℕ → Bool) : ScanResult α β :=
  let allImages := (folders.map walkImages).flatten
  let r := scanLoop outcome cancelled allImages 0
  { summary := ⟨allImages.length, r.2.1, r.2.2.1, r.2.2.2.1, r.2.2.2.2⟩
    processed := r.1
    markedScanned := folders }

/-! ## Face-to-identity assignment state (db/manager.py, core/app_core.py) -/

/-- Relevant database state: the `AUTOINCREMENT` counter for face ids, the set
of existing face ids, and the `person_face_mappings` rows `(person_id, face_id)`
(a set, by the `UNIQUE(person_id, face_id)` constraint with `INSERT OR IGNORE`). -/
structure DBState where
  nextFaceId : ℕ
  faces : Finset ℕ
  mappings : Finset (ℕ × ℕ)
deriving DecidableEq

/-- `DatabaseManager.map_face_to_person`: `INSERT OR IGNORE` of one mapping row. -/
def mapFaceToPerson (p f : ℕ) (s : DBState) : DBState :=
  { s with mappings := insert (p, f) s.mappings }

/-- `DatabaseManager.unmap_face`: delete every mapping row of this face. -/
def unmapFace (f : ℕ) (s : DBState) : DBState :=
  { s with mappings := s.mappings.filter fun m => m.2 ≠ f }

/-- `DatabaseManager.insert_face`: a fresh `AUTOINCREMENT` face id is created
and returned. -/
def insertFace (s : DBState) : DBState × ℕ :=
  ({ s with nextFaceId := s.nextFaceId + 1, faces := insert s.nextFaceId s.faces },
    s.nextFaceId)

/-- `DatabaseManager.delete_face` (also each row removed by
`delete_faces_for_photo`): the face row disappears and, by
`ON DELETE CASCADE` with `PRAGMA foreign_keys=ON`, so do its mapping rows. -/
def deleteFace (f : ℕ) (s : DBState) : DBState :=
  { s with faces := s.faces.erase f, mappings := s.mappings.filter fun m => m.2 ≠ f }

/-- `AppCore.assign_faces_to_person` (and the identical mapping loop of
`AppCore.create_person_from_faces`): for each face id, unmap it, then map it
to the target person. -/
def assignFaces (p : ℕ) (fids : List ℕ) (s : DBState) : DBState :=
  fids.foldl (fun s1 f => mapFaceToPerson p f (unmapFace f s1)) s

/-- One detected face inside `PhotoScanner._index_faces`: the face is inserted
(fresh id) and, when `find_best_match` returned a person, mapped to it. -/
def scanDetectFace (matched : Option ℕ) (s : DBState) : DBState :=
  let r := insertFace s
  match matched with
  | none => r.1
  | some p => mapFaceToPerson p r.2 r.1

/-- `AppCore.auto_match_all_unassigned`: the list `l` pairs each unassigned
face with the optional match found for it; matched faces are mapped in order. -/
def autoMatchFaces (l : List (ℕ × Option ℕ)) (s : DBState) : DBState :=
  l.foldl (fun s1 fm => match fm.2 with | none => s1 | some p => mapFaceToPerson p fm.1 s1) s

/-- The state transitions the application can perform on mappings: a scanner
face insertion with optional auto-assignment, a user assignment (existing
faces only), an auto-match pass (over distinct, currently unassigned faces,
as delivered by `get_unassigned_faces`), an unassignment, and a face deletion. -/
inductive DBStep : DBState → DBState → Prop where
  | scanFace (s : DBState) (matched : Option ℕ) : DBStep s (scanDetectFace matched s)
  | assign (s : DBState) (p : ℕ) (fids : List ℕ) (hf : ∀ f ∈ fids, f ∈ s.faces) :
      DBStep s (assignFaces p fids s)
  | autoMatch (s : DBState) (l : List (ℕ × Option ℕ))
      (hnd : (l.map Prod.fst).Nodup)
      (hface : ∀ fm ∈ l, fm.1 ∈ s.faces)
      (hun : ∀ fm ∈ l, ∀ p, (p, fm.1) ∉ s.mappings) :
      DBStep s (autoMatchFaces l s)
  | unmap (s : DBState) (f : ℕ) : DBStep s (unmapFace f s)
  | delete (s : DBState) (f : ℕ) : DBStep s (deleteFace f s)

/-- The empty database. -/
def initState : DBState := ⟨0, ∅, ∅⟩

/-- States reachable from the empty database through application operations. -/
inductive DBReachable : DBState → Prop where
  | init : DBReachable initState
  | step {s s' : DBState} : DBReachable s → DBStep s s' → DBReachable s'

/-! ## Helper lemmas about `listMin` and `argmin` -/

lemma foldl_min_le_init (xs : List ℝ) (a : ℝ) : xs.foldl min a ≤ a := by
  induction xs generalizing a with
  | nil => simp
  | cons y ys ih => exact le_trans (ih (min a y)) (min_le_left a y)

lemma foldl_min_mem (xs : List ℝ) (a : ℝ) : xs.foldl min a ∈ a :: xs := by
  induction xs generalizing a with
  | nil => simp
  | cons y ys ih =>
    have hg : (y :: ys).foldl min a = ys.foldl min (min a y) := rfl
    rw [hg]
    rcases List.mem_cons.1 (ih (min a y)) with h1 | h1
    · rw [h1]
      rcases min_choice a y with h2 | h2 <;> rw [h2]
      · exact List.mem_cons_self _ _
      · exact List.mem_cons.2 (Or.inr (List.mem_cons_self _ _))
    · exact List.mem_cons.2 (Or.inr (List.mem_cons.2 (Or.inr h1)))

lemma foldl_min_le (xs : List ℝ) (a b : ℝ) (hb : b ∈ a :: xs) : xs.foldl min a ≤ b := by
  induction xs generalizing a with
  | nil =>
    have hba : b = a := by simpa using hb
    simp [hba]
  | cons y ys ih =>
    have hg : (y :: ys).foldl min a = ys.foldl min (min a y) := rfl
    rcases List.mem_cons.1 hb with h | h
    · subst h
      exact foldl_min_le_init (y :: ys) b
    · rcases List.mem_cons.1 h with h2 | h2
      · subst h2
        rw [hg]
        exact le_trans (foldl_min_le_init ys (min a b)) (min_le_right a b)
      · rw [hg]
        exact ih (min a y) (List.mem_cons.2 (Or.inr h2))

lemma listMin_mem {l : List ℝ} (h : l ≠ []) : listMin l ∈ l := by
  cases l with
  | nil => exact absurd rfl h
  | cons x xs => exact foldl_min_mem xs x

lemma listMin_le {l : List ℝ} {x : ℝ} (hx : x ∈ l) : listMin l ≤ x := by
  cases l with
  | nil => simp at hx
  | cons y ys => exact foldl_min_le ys y x hx

lemma listMin_perm {l l' : List ℝ} (h : l.Perm l') : listMin l = listMin l' := by
  cases l with
  | nil => rw [List.Perm.eq_nil h.symm]
  | cons x xs =>
    have hne : (x :: xs) ≠ ([] : List ℝ) := by simp
    have hne' : l' ≠ ([] : List ℝ) := by
      intro hc; rw [hc] at h; exact hne (List.Perm.eq_nil h)
    exact le_antisymm
      (listMin_le (h.symm.subset (listMin_mem hne')))
      (listMin_le (h.subset (listMin_mem hne)))

lemma argmin_lt_length {l : List ℝ} (h : l ≠ []) : argmin l < l.length :=
  List.indexOf_lt_length.2 (listMin_mem h)

lemma getD_argmin {l : List ℝ} (h : l ≠ []) : l.getD (argmin l) 0 = listMin l := by
  have hlt : List.indexOf (listMin l) l < l.length :=
    List.indexOf_lt_length.2 (listMin_mem h)
  show l.getD (List.indexOf (listMin l) l) 0 = listMin l
  rw [List.getD_eq_getElem l 0 hlt]
  exact List.getElem_indexOf hlt

lemma argmin_single (d : ℝ) : argmin [d] = 0 := by
  have : listMin [d] = d := rfl
  simp [argmin, this]

/-! ## C7: no-match outcomes of `find_best_match` are `none`, not errors -/

/-- C7: `find_best_match` returns `none` — a normal value, never an error —
whenever the known list is empty (for any query, null or not) or the query is
null (for any known list); `none` is the ordinary unknown-identity outcome. -/
theorem c7_find_best_match_none_on_empty_or_null (q : Option (List ℝ))
    (known : List (ℤ × List ℝ)) (t t' : ℝ) :
    find_best_match q [] t = none ∧ find_best_match none known t' = none := by
  refine ⟨?_, rfl⟩
  cases q <;> rfl

/-! ## C3: folders are marked scanned even when the run is cancelled -/

/-- C3 (evidence of the divergence): `scan` marks every requested folder as
scanned unconditionally — in particular a run cancelled before its first file
processes nothing yet still marks its folder, so a cancelled run does not
leave the folders' scanned state unchanged. -/
theorem c3_scan_marks_folders_despite_cancellation :
    (∀ (folders : List ℕ) (walkImages : ℕ → List ℕ) (outcome : ℕ → FileResult)
        (cancelled : ℕ → Bool),
      (scan folders walkImages outcome cancelled).markedScanned = folders) ∧
    (scan [7] (fun _ => [0]) (fun _ => FileResult.skipped) (fun _ => true)).processed
        = [] ∧
    (scan [7] (fun _ => [0]) (fun _ => FileResult.skipped) (fun _ => true)).markedScanned
        = [7] :=
  ⟨fun _ _ _ _ => rfl, rfl, rfl⟩

/-! ## C8: cancellation is polled before each file; totals are pre-computed -/

lemma scanLoop_processed_take {α : Type} (outcome : α → FileResult) (k : ℕ) :
    ∀ (files : List α) (n : ℕ),
      (scanLoop outcome (fun i => decide (k ≤ i)) files n).1 = files.take (k - n) := by
  intro files
  induction files with
  | nil => intro n; simp [scanLoop]
  | cons f rest ih =>
    intro n
    by_cases h : k ≤ n
    · have h0 : k - n = 0 := Nat.sub_eq_zero_of_le h
      simp [scanLoop, h, h0]
    · have h1 : k - n = (k - (n + 1)) + 1 := by omega
      rcases hr : scanLoop outcome (fun i => decide (k ≤ i)) rest (n + 1)
        with ⟨ps, a, s, fc, m⟩
      have hps : ps = rest.take (k - (n + 1)) := by
        have := ih (n + 1); rw [hr] at this; exact this
      cases ho : outcome f <;>
        simp [scanLoop, h, hr, ho, h1, hps]

/-- C8: for a scan over 10 enumerated files whose cancellation predicate
becomes true once 2 files have been processed (it is polled before each
file), the summary reports `total = 10` while only the first 2 files reach
the per-file body, hence at most 2 files can show detection side effects. -/
theorem c8_cancel_after_two_of_ten (files : List ℕ) (outcome : ℕ → FileResult)
    (h : files.length = 10) :
    (scan [0] (fun _ => files) outcome (fun i => decide (2 ≤ i))).summary.total = 10 ∧
    (scan [0] (fun _ => files) outcome (fun i => decide (2 ≤ i))).processed
      = files.take 2 := by
  constructor
  · simp [scan, h]
  · have := scanLoop_processed_take outcome 2 (files ++ []) 0
    simpa [scan] using this

/-- Witness for C8 at a concrete 10-element file list. -/
theorem c8_cancel_after_two_of_ten_witness :
    (scan [0] (fun _ => [0, 1, 2, 3, 4, 5, 6, 7, 8, 9]) (fun _ => FileResult.skipped)
        (fun i => decide (2 ≤ i))).summary.total = 10 ∧
    (scan [0] (fun _ => [0, 1, 2, 3, 4, 5, 6, 7, 8, 9]) (fun _ => FileResult.skipped)
        (fun i => decide (2 ≤ i))).processed = [0, 1] := by
  have h := c8_cancel_after_two_of_ten [0, 1, 2, 3, 4, 5, 6, 7, 8, 9]
    (fun _ => FileResult.skipped) rfl
  exact ⟨h.1, by rw [h.2]; rfl⟩

/-! ## C10: the clustering output partitions the input indices -/

/-- Loop invariant of `cluster_embeddings` after consuming the first `k`
inputs: clusters and leaders run in parallel, the clusters' indices are
exactly `0, ..., k-1` (each exactly once), and every cluster is a nonempty,
strictly increasing list of indices below `k`. -/
def ClusterInv (k : ℕ) (st : List (List ℕ) × List (List ℝ)) : Prop :=
  st.1.length = st.2.length ∧
  st.1.flatten.Perm (List.range k) ∧
  ∀ c ∈ st.1, c ≠ [] ∧ c.Pairwise (fun a b => a < b) ∧ ∀ i ∈ c, i < k

lemma flatten_set_append (cl : List (List ℕ)) (x : ℕ) :
    ∀ b, b < cl.length →
      (cl.set b (cl.getD b [] ++ [x])).flatten.Perm (cl.flatten ++ [x]) := by
  induction cl with
  | nil => intro b hb; simp at hb
  | cons c cls ih =>
    intro b hb
    cases b with
    | zero =>
      have hset : ((c :: cls).set 0 (((c :: cls).getD 0 []) ++ [x]))
          = (c ++ [x]) :: cls := rfl
      rw [hset]
      have h1 : ((c ++ [x]) :: cls).flatten = c ++ ([x] ++ cls.flatten) := by simp
      have h2 : ((c :: cls).flatten ++ [x]) = c ++ (cls.flatten ++ [x]) := by simp
      rw [h1, h2]
      exact List.Perm.append_left c List.perm_append_comm
    | succ b1 =>
      have hb1 : b1 < cls.length := by simpa using hb
      have hset : ((c :: cls).set (b1 + 1) (((c :: cls).getD (b1 + 1) []) ++ [x]))
          = c :: (cls.set b1 ((cls.getD b1 []) ++ [x])) := rfl
      rw [hset]
      have h1 : (c :: cls.set b1 ((cls.getD b1 []) ++ [x])).flatten
          = c ++ (cls.set b1 ((cls.getD b1 []) ++ [x])).flatten := by simp
      have h2 : ((c :: cls).flatten ++ [x]) = c ++ (cls.flatten ++ [x]) := by simp
      rw [h1, h2]
      exact List.Perm.append_left c (ih b1 hb1)

lemma clusterInv_append {k : ℕ} {cl : List (List ℕ)} {ld : List (List ℝ)} {v : List ℝ}
    (h : ClusterInv k (cl, ld)) : ClusterInv (k + 1) (cl ++ [[k]], ld ++ [v]) := by
  obtain ⟨hlen, hperm, hc⟩ := h
  refine ⟨by simp [hlen], ?_, ?_⟩
  · have h1 : (cl ++ [[k]]).flatten = cl.flatten ++ [k] := by simp
    rw [h1, List.range_succ]
    exact List.Perm.append hperm (List.Perm.refl [k])
  · intro c hcmem
    rcases List.mem_append.1 hcmem with hm | hm
    · obtain ⟨h1, h2, h3⟩ := hc c hm
      exact ⟨h1, h2, fun i hi => Nat.lt_succ_of_lt (h3 i hi)⟩
    · have hck : c = [k] := by simpa using hm
      subst hck
      refine ⟨by simp, by simp, ?_⟩
      intro i hi
      have : i = k := by simpa using hi
      omega

lemma clusterStep_inv {t : ℝ} {k : ℕ} {st : List (List ℕ) × List (List ℝ)}
    {v : List ℝ} (h : ClusterInv k st) : ClusterInv (k + 1) (clusterStep t st (k, v)) := by
  obtain ⟨cl, ld⟩ := st
  cases ld with
  | nil => exact clusterInv_append h
  | cons L ls =>
    obtain ⟨hlen, hperm, hc⟩ := h
    simp only [clusterStep]
    by_cases hd : (((L :: ls).map fun M => 1 - dot M v).getD
        (argmin ((L :: ls).map fun M => 1 - dot M v)) 0) < t
    · rw [if_pos hd]
      have hbd : argmin ((L :: ls).map fun M => 1 - dot M v)
          < ((L :: ls).map fun M => 1 - dot M v).length :=
        argmin_lt_length (by simp)
      have hblt : argmin ((L :: ls).map fun M => 1 - dot M v) < cl.length := by
        simpa [hlen] using hbd
      refine ⟨by simp [List.length_set, hlen], ?_, ?_⟩
      · have hp := flatten_set_append cl k _ hblt
        rw [List.range_succ]
        exact hp.trans (List.Perm.append hperm (List.Perm.refl [k]))
      · intro c hcmem
        rcases List.mem_or_eq_of_mem_set hcmem with hm | hm
        · obtain ⟨h1, h2, h3⟩ := hc c hm
          exact ⟨h1, h2, fun i hi => Nat.lt_succ_of_lt (h3 i hi)⟩
        · have hc0mem : cl.getD (argmin ((L :: ls).map fun M => 1 - dot M v)) [] ∈ cl := by
            rw [List.getD_eq_getElem cl [] hblt]
            exact List.getElem_mem hblt
          obtain ⟨h1, h2, h3⟩ := hc _ hc0mem
          subst hm
          refine ⟨by simp, ?_, ?_⟩
          · rw [List.pairwise_append]
            exact ⟨h2, List.pairwise_singleton _ _, by
              intro a ha b hb
              have hbk : b = k := by simpa using hb
              subst hbk
              exact h3 a ha⟩
          · intro i hi
            rcases List.mem_append.1 hi with hm2 | hm2
            · exact Nat.lt_succ_of_lt (h3 i hm2)
            · have : i = k := by simpa using hm2
              omega
    · rw [if_neg hd]
      exact clusterInv_append ⟨hlen, hperm, hc⟩

lemma foldl_clusterStep_inv (t : ℝ) :
    ∀ (l : List (List ℝ)) (k : ℕ) (st : List (List ℕ) × List (List ℝ)),
      ClusterInv k st →
      ClusterInv (k + l.length) ((List.enumFrom k l).foldl (clusterStep t) st) := by
  intro l
  induction l with
  | nil => intro k st h; simpa using h
  | cons v vs ih =>
    intro k st h
    have h1 : ClusterInv (k + 1) (clusterStep t st (k, v)) := clusterStep_inv h
    have h2 := ih (k + 1) _ h1
    have harith : (k + 1) + vs.length = k + (vs.length + 1) := by omega
    rw [harith] at h2
    simpa [List.enumFrom] using h2

/-- C10: for every input and threshold the output of `cluster_embeddings` is a
partition of the input indices — the concatenation of the clusters is a
permutation of `0, ..., N-1` (so each index appears in exactly one cluster),
every cluster is nonempty with its indices in strictly increasing order of
first encounter; the empty input yields the empty output and a singleton input
yields the single cluster `[[0]]`. -/
theorem c10_cluster_embeddings_partition (embeddings : List (List ℝ)) (t : ℝ) :
    (cluster_embeddings embeddings t).flatten.Perm (List.range embeddings.length) ∧
    (∀ c ∈ cluster_embeddings embeddings t, c ≠ [] ∧ c.Pairwise (fun a b => a < b)) ∧
    (embeddings = [] → cluster_embeddings embeddings t = []) ∧
    (∀ e, embeddings = [e] → cluster_embeddings embeddings t = [[0]]) := by
  cases hemb : embeddings with
  | nil =>
    refine ⟨by simp [cluster_embeddings], by simp [cluster_embeddings], fun _ => rfl, ?_⟩
    intro e he
    simp at he
  | cons e0 rest =>
    subst hemb
    have hinv : ClusterInv (0 + (((e0 :: rest)).map rowNormalize).length)
        ((List.enumFrom 0 (((e0 :: rest)).map rowNormalize)).foldl (clusterStep t) ([], [])) := by
      refine foldl_clusterStep_inv t _ 0 ([], []) ?_
      exact ⟨rfl, by simp, by simp⟩
    have hres : cluster_embeddings (e0 :: rest) t
        = ((List.enumFrom 0 ((e0 :: rest).map rowNormalize)).foldl
            (clusterStep t) ([], [])).1 := rfl
    obtain ⟨_, hperm, hcl⟩ := hinv
    refine ⟨?_, ?_, ?_, ?_⟩
    · rw [hres]
      simpa using hperm
    · intro c hcmem
      rw [hres] at hcmem
      obtain ⟨h1, h2, _⟩ := hcl c hcmem
      exact ⟨h1, h2⟩
    · intro hcontra
      simp at hcontra
    · intro e he
      obtain ⟨-, hrest⟩ := List.cons.inj he
      subst hrest
      rw [hres]
      rfl

/-! ## C2: the clustering code refines the spec's description -/

lemma norm2_nonneg (v : List ℝ) : 0 ≤ norm2 v := Real.sqrt_nonneg _

lemma rowNormalize_eq_normalizeSpec : rowNormalize = normalizeSpec := by
  funext v
  by_cases h : norm2 v = 0
  · simp [rowNormalize, normalizeSpec, h]
  · simp [rowNormalize, normalizeSpec, h]

lemma leaderUpdate_eq_spec (n : ℕ) (L cur : List ℝ) :
    leaderUpdate n L cur
      = normalizeSpec (List.zipWith (fun x y => (x * ((n : ℝ) - 1) + y) / n) L cur) := by
  have hfun : (fun (x y : ℝ) => x * ((n : ℝ) - 1) / n + y / n)
      = fun (x y : ℝ) => (x * ((n : ℝ) - 1) + y) / n := by
    funext x y
    rw [add_div]
  rw [leaderUpdate, hfun]
  set u := List.zipWith (fun (x y : ℝ) => (x * ((n : ℝ) - 1) + y) / n) L cur with hu
  by_cases h : norm2 u = 0
  · simp [normalizeSpec, h]
  · have hpos : 0 < norm2 u := lt_of_le_of_ne (norm2_nonneg u) (Ne.symm h)
    simp [normalizeSpec, h, hpos]

lemma clusterStep_eq_spec : clusterStep = clusterStepSpec := by
  funext t st p
  obtain ⟨cl, ld⟩ := st
  cases ld with
  | nil => rfl
  | cons L ls =>
    simp only [clusterStep, clusterStepSpec]
    have hne : ((L :: ls).map fun M => 1 - dot M p.2) ≠ [] := by simp
    rw [getD_argmin hne, leaderUpdate_eq_spec]

lemma cluster_embeddings_eq_spec : cluster_embeddings = clusterSpec := by
  funext embeddings t
  cases embeddings with
  | nil => rfl
  | cons e0 rest =>
    show ((List.map rowNormalize (e0 :: rest)).enum.foldl (clusterStep t) ([], [])).1
      = ((List.map normalizeSpec (e0 :: rest)).enum.foldl (clusterStepSpec t) ([], [])).1
    rw [rowNormalize_eq_normalizeSpec, clusterStep_eq_spec]

lemma dot_pair (a b c d : ℝ) : dot [a, b] [c, d] = a * c + b * d := by
  simp [dot]

lemma norm2_pair (a b : ℝ) : norm2 [a, b] = Real.sqrt (a * a + b * b) := by
  simp [norm2]

lemma rowNormalize_pair_of_ne {a b : ℝ} (h : norm2 [a, b] ≠ 0) :
    rowNormalize [a, b] = [a / norm2 [a, b], b / norm2 [a, b]] := by
  simp [rowNormalize, h]

lemma clusterStep_single_lt {t : ℝ} (c0 : List ℕ) (L cur : List ℝ) (i : ℕ)
    (h : 1 - dot L cur < t) :
    clusterStep t ([c0], [L]) (i, cur)
      = ([c0 ++ [i]], [leaderUpdate (c0.length + 1) L cur]) := by
  simp only [clusterStep]
  have hm : ([L].map fun M => 1 - dot M cur) = [1 - dot L cur] := rfl
  rw [hm, argmin_single]
  rw [show ([1 - dot L cur].getD 0 0) = 1 - dot L cur from rfl]
  rw [if_pos h]
  simp

lemma clusterStep_single_ge {t : ℝ} (cl : List (List ℕ)) (L cur : List ℝ) (i : ℕ)
    (h : ¬(1 - dot L cur < t)) :
    clusterStep t (cl, [L]) (i, cur) = (cl ++ [[i]], [L, cur]) := by
  simp only [clusterStep]
  have hm : ([L].map fun M => 1 - dot M cur) = [1 - dot L cur] := rfl
  rw [hm, argmin_single]
  rw [show ([1 - dot L cur].getD 0 0) = 1 - dot L cur from rfl]
  rw [if_neg h]
  rfl

/-- C2: `cluster_embeddings` is exactly the spec's algorithm — for every input
sequence and threshold it agrees with the spec-level clustering whose leader
update is `normalize((leader * (n-1) + current) / n)` with `n` the new cluster
size, new clusters starting at the embedding itself — and on the scenario
`A = [1,0]`, `B = [1, 0.01]`, `C = [0,1]` with threshold `0.1` it returns
`[[0,1],[2]]`. -/
theorem c2_cluster_matches_spec_with_scenario :
    cluster_embeddings = clusterSpec ∧
    cluster_embeddings [[1, 0], [1, 1/100], [0, 1]] (1/10) = [[0, 1], [2]] := by
  refine ⟨cluster_embeddings_eq_spec, ?_⟩
  have hnB : norm2 [(1 : ℝ), 1/100] = Real.sqrt (10001/10000) := by
    rw [norm2_pair]; norm_num
  set s : ℝ := Real.sqrt (10001/10000) with hs
  have hspos : 0 < s := Real.sqrt_pos.2 (by norm_num)
  have hsne : norm2 [(1 : ℝ), 1/100] ≠ 0 := by rw [hnB]; exact ne_of_gt hspos
  have hs1 : 1 ≤ s := by
    rw [hs, show (1 : ℝ) = Real.sqrt 1 from Real.sqrt_one.symm]
    exact Real.sqrt_le_sqrt (by norm_num)
  have hslt : s < 10/9 := by
    rw [hs]
    exact (Real.sqrt_lt' (by norm_num)).2 (by norm_num)
  have hnA : norm2 [(1 : ℝ), 0] = 1 := by rw [norm2_pair]; norm_num
  have hnC : norm2 [(0 : ℝ), 1] = 1 := by rw [norm2_pair]; norm_num
  have hA : rowNormalize [(1 : ℝ), 0] = [1, 0] := by
    rw [rowNormalize_pair_of_ne (by rw [hnA]; norm_num), hnA]
    norm_num
  have hC : rowNormalize [(0 : ℝ), 1] = [0, 1] := by
    rw [rowNormalize_pair_of_ne (by rw [hnC]; norm_num), hnC]
    norm_num
  have hB : rowNormalize [(1 : ℝ), 1/100] = [1/s, (1/100)/s] := by
    rw [rowNormalize_pair_of_ne hsne, hnB]
  have hd1 : 1 - dot [(1 : ℝ), 0] [1/s, (1/100)/s] < 1/10 := by
    rw [dot_pair]
    have h1 : (9 : ℝ)/10 * s < 1 := by
      have h2 := mul_lt_mul_of_pos_left hslt (show (0 : ℝ) < 9/10 by norm_num)
      linarith
    have h2 : (9 : ℝ)/10 < 1/s := (lt_div_iff₀ hspos).2 h1
    have h3 : (1 : ℝ) * (1/s) + 0 * ((1/100)/s) = 1/s := by ring
    rw [h3]
    linarith
  -- the updated leader after absorbing B into the first cluster
  have hupd : List.zipWith
      (fun x y => x * (((2 : ℕ) : ℝ) - 1) / ((2 : ℕ) : ℝ) + y / ((2 : ℕ) : ℝ))
      [1, 0] [1/s, (1/100)/s] = [1/2 + (1/s)/2, ((1/100)/s)/2] := by
    have h2c : ((2 : ℕ) : ℝ) = 2 := by norm_num
    rw [show List.zipWith
        (fun x y => x * (((2 : ℕ) : ℝ) - 1) / ((2 : ℕ) : ℝ) + y / ((2 : ℕ) : ℝ))
        [1, 0] [1/s, (1/100)/s]
      = [(1 : ℝ) * (((2 : ℕ) : ℝ) - 1) / ((2 : ℕ) : ℝ) + (1/s) / ((2 : ℕ) : ℝ),
         (0 : ℝ) * (((2 : ℕ) : ℝ) - 1) / ((2 : ℕ) : ℝ) + ((1/100)/s) / ((2 : ℕ) : ℝ)]
      from rfl, h2c]
    norm_num
  have hxpos : (0 : ℝ) < 1/s := by positivity
  have hw0 : (0 : ℝ) < 1/2 + (1/s)/2 := by positivity
  have hwpos : 0 < norm2 [1/2 + (1/s)/2, ((1/100)/s)/2] := by
    rw [norm2_pair]
    apply Real.sqrt_pos.2
    nlinarith [mul_self_nonneg (((1/100)/s)/2), mul_pos hw0 hw0]
  set Lr : ℝ := norm2 [1/2 + (1/s)/2, ((1/100)/s)/2] with hLr
  have hU : leaderUpdate 2 [1, 0] [1/s, (1/100)/s]
      = [(1/2 + (1/s)/2) / Lr, (((1/100)/s)/2) / Lr] := by
    simp only [leaderUpdate, hupd]
    rw [if_pos hwpos]
    rfl
  have hLrge : 1/2 + (1/s)/2 ≤ Lr := by
    rw [hLr, norm2_pair]
    have h1 : Real.sqrt ((1/2 + (1/s)/2) * (1/2 + (1/s)/2))
        ≤ Real.sqrt ((1/2 + (1/s)/2) * (1/2 + (1/s)/2) + (((1/100)/s)/2) * (((1/100)/s)/2)) :=
      Real.sqrt_le_sqrt (by nlinarith [mul_self_nonneg (((1/100)/s)/2)])
    rw [Real.sqrt_mul_self (le_of_lt hw0)] at h1
    exact h1
  have hLrpos : (0 : ℝ) < Lr := lt_of_lt_of_le hw0 hLrge
  have hy100 : (1/100)/s ≤ 1/100 := div_le_self (by norm_num) hs1
  have hypos : (0 : ℝ) ≤ (1/100)/s := by positivity
  have hd3 : ¬ (1 - dot [(1/2 + (1/s)/2) / Lr, (((1/100)/s)/2) / Lr] [0, 1] < 1/10) := by
    rw [dot_pair]
    have h1 : ((((1/100)/s)/2) / Lr) ≤ 9/10 := by
      rw [div_le_iff₀ hLrpos]
      nlinarith
    have h2 : (1/2 + (1/s)/2) / Lr * 0 + (((1/100)/s)/2) / Lr * 1
        = (((1/100)/s)/2) / Lr := by ring
    rw [h2]
    linarith
  show ((([[(1 : ℝ), 0], [1, 1/100], [0, 1]].map rowNormalize)).enum.foldl
      (clusterStep (1/10)) ([], [])).1 = [[0, 1], [2]]
  rw [List.map_cons, List.map_cons, List.map_cons, List.map_nil, hA, hB, hC]
  rw [show ([[(1 : ℝ), 0], [1/s, (1/100)/s], [0, 1]]).enum
    = [(0, [(1 : ℝ), 0]), (1, [1/s, (1/100)/s]), (2, [0, 1])] from rfl]
  rw [List.foldl_cons, List.foldl_cons, List.foldl_cons, List.foldl_nil]
  rw [show clusterStep (1/10) ([], []) (0, [(1 : ℝ), 0]) = ([[0]], [[1, 0]]) from rfl]
  rw [clusterStep_single_lt [0] [1, 0] [1/s, (1/100)/s] 1 hd1]
  rw [show (([0] : List ℕ) ++ [1]) = [0, 1] from rfl,
    show (([0] : List ℕ).length + 1) = 2 from rfl]
  rw [hU]
  rw [clusterStep_single_ge [[0, 1]] _ [0, 1] 2 hd3]
  rfl

/-! ## Characterisation of the per-person fold of `find_best_match` -/

/-- Invariant of the per-person loop of `find_best_match` after the persons in
`done` have been examined: the accumulator is still `(None, threshold)` when no
surviving person so far beat the threshold, and otherwise holds the earliest
surviving person achieving the strictly smallest minimum distance so far. -/
def MatchAcc (q : List ℝ) (known : List (ℤ × List ℝ)) (t : ℝ)
    (done : List ℤ) (acc : Option ℤ × ℝ) : Prop :=
  (acc.1 = none → acc.2 = t ∧
    ∀ p ∈ done, ¬ voteRejected q known t p → t ≤ minDist q known p) ∧
  (∀ p, acc.1 = some p → (¬ voteRejected q known t p) ∧ p ∈ done ∧
    acc.2 = minDist q known p ∧ acc.2 < t ∧
    (∀ p2 ∈ done, ¬ voteRejected q known t p2 → acc.2 ≤ minDist q known p2) ∧
    (∀ p2 ∈ done, ¬ voteRejected q known t p2 → minDist q known p2 = acc.2 → p ≤ p2))

lemma matchAcc_le {q known t done acc} (h : MatchAcc q known t done acc) : acc.2 ≤ t := by
  obtain ⟨hnone, hsome⟩ := h
  cases hopt : acc.1 with
  | none => exact le_of_eq (hnone hopt).1
  | some p => exact le_of_lt (hsome p hopt).2.2.2.1

lemma matchStep_acc {q : List ℝ} {known : List (ℤ × List ℝ)} {t : ℝ}
    {done : List ℤ} {acc : Option ℤ × ℝ} (y : ℤ)
    (hacc : MatchAcc q known t done acc) (hordy : ∀ x ∈ done, x < y) :
    MatchAcc q known t (done ++ [y]) (matchStep q known t acc y) := by
  obtain ⟨hnone, hsome⟩ := hacc
  by_cases hrej : voteRejected q known t y
  · rw [matchStep, if_pos hrej]
    constructor
    · intro h1
      obtain ⟨h2, h3⟩ := hnone h1
      refine ⟨h2, ?_⟩
      intro p hp hsur
      rcases List.mem_append.1 hp with h4 | h4
      · exact h3 p h4 hsur
      · have hpy : p = y := by simpa using h4
        exact absurd (hpy ▸ hrej) hsur
    · intro p hp
      obtain ⟨h2, h3, h4, h5, h6, h7⟩ := hsome p hp
      refine ⟨h2, List.mem_append.2 (Or.inl h3), h4, h5, ?_, ?_⟩
      · intro p2 hp2 hsur
        rcases List.mem_append.1 hp2 with h8 | h8
        · exact h6 p2 h8 hsur
        · have hpy : p2 = y := by simpa using h8
          exact absurd (hpy ▸ hrej) hsur
      · intro p2 hp2 hsur hmd
        rcases List.mem_append.1 hp2 with h8 | h8
        · exact h7 p2 h8 hsur hmd
        · have hpy : p2 = y := by simpa using h8
          exact absurd (hpy ▸ hrej) hsur
  · have hle : acc.2 ≤ t := matchAcc_le ⟨hnone, hsome⟩
    by_cases hlt : minDist q known y < acc.2
    · rw [matchStep, if_neg hrej, if_pos hlt]
      constructor
      · intro h1; simp at h1
      · intro p hp
        have hpy : p = y := by simpa using hp.symm
        subst hpy
        refine ⟨hrej, List.mem_append.2 (Or.inr (by simp)), rfl,
          lt_of_lt_of_le hlt hle, ?_, ?_⟩
        · intro p2 hp2 hsur
          rcases List.mem_append.1 hp2 with h8 | h8
          · cases hopt : acc.1 with
            | none =>
              have h9 := (hnone hopt).2 p2 h8 hsur
              have h10 := (hnone hopt).1
              exact le_of_lt (lt_of_lt_of_le (h10 ▸ hlt) h9)
            | some p0 =>
              have h9 := (hsome p0 hopt).2.2.2.2.1 p2 h8 hsur
              exact le_of_lt (lt_of_lt_of_le hlt h9)
          · have hpy : p2 = p := by simpa using h8
            exact le_of_eq (by rw [hpy])
        · intro p2 hp2 hsur hmd
          rcases List.mem_append.1 hp2 with h8 | h8
          · exfalso
            cases hopt : acc.1 with
            | none =>
              have h9 := (hnone hopt).2 p2 h8 hsur
              have h10 := (hnone hopt).1
              rw [hmd] at h9
              exact absurd (lt_of_le_of_lt h9 (h10 ▸ hlt)) (lt_irrefl _)
            | some p0 =>
              have h9 := (hsome p0 hopt).2.2.2.2.1 p2 h8 hsur
              rw [hmd] at h9
              exact absurd (lt_of_le_of_lt h9 hlt) (lt_irrefl _)
          · have hpy : p2 = p := by simpa using h8
            exact le_of_eq hpy.symm
    · rw [matchStep, if_neg hrej, if_neg hlt]
      constructor
      · intro h1
        obtain ⟨h2, h3⟩ := hnone h1
        refine ⟨h2, ?_⟩
        intro p hp hsur
        rcases List.mem_append.1 hp with h4 | h4
        · exact h3 p h4 hsur
        · have hpy : p = y := by simpa using h4
          subst hpy
          rw [← h2]
          exact le_of_not_lt hlt
      · intro p hp
        obtain ⟨h2, h3, h4, h5, h6, h7⟩ := hsome p hp
        refine ⟨h2, List.mem_append.2 (Or.inl h3), h4, h5, ?_, ?_⟩
        · intro p2 hp2 hsur
          rcases List.mem_append.1 hp2 with h8 | h8
          · exact h6 p2 h8 hsur
          · have hpy : p2 = y := by simpa using h8
            subst hpy
            exact le_of_not_lt hlt
        · intro p2 hp2 hsur hmd
          rcases List.mem_append.1 hp2 with h8 | h8
          · exact h7 p2 h8 hsur hmd
          · have hpy : p2 = y := by simpa using h8
            subst hpy
            exact le_of_lt (hordy p h3)

lemma matchFold_acc (q : List ℝ) (known : List (ℤ × List ℝ)) (t : ℝ) :
    ∀ (l : List ℤ) (done : List ℤ) (acc : Option ℤ × ℝ),
      MatchAcc q known t done acc →
      (∀ x ∈ done, ∀ y ∈ l, x < y) → l.Pairwise (fun a b => a < b) →
      MatchAcc q known t (done ++ l) (l.foldl (matchStep q known t) acc) := by
  intro l
  induction l with
  | nil => intro done acc hacc _ _; simpa using hacc
  | cons y ys ih =>
    intro done acc hacc hord hpw
    have hordy : ∀ x ∈ done, x < y := fun x hx => hord x hx y (List.mem_cons_self y ys)
    have hstep := matchStep_acc y hacc hordy
    have hord2 : ∀ x ∈ done ++ [y], ∀ z ∈ ys, x < z := by
      intro x hx z hz
      rcases List.mem_append.1 hx with h1 | h1
      · exact hord x h1 z (List.mem_cons.2 (Or.inr hz))
      · have hxy : x = y := by simpa using h1
        subst hxy
        exact (List.pairwise_cons.1 hpw).1 z hz
    have hpw2 : ys.Pairwise (fun a b => a < b) := (List.pairwise_cons.1 hpw).2
    have hres := ih (done ++ [y]) _ hstep hord2 hpw2
    simpa using hres

lemma uniquePids_sorted (known : List (ℤ × List ℝ)) :
    (uniquePids known).Pairwise (fun a b => a < b) :=
  Finset.sort_sorted_lt (known.map Prod.fst).toFinset

lemma mem_uniquePids {known : List (ℤ × List ℝ)} {pid : ℤ} :
    pid ∈ uniquePids known ↔ pid ∈ known.map Prod.fst := by
  simp [uniquePids, Finset.mem_sort]

/-- The loop invariant instantiated over the whole sorted unique person list. -/
lemma matchFold_result (q : List ℝ) (known : List (ℤ × List ℝ)) (t : ℝ) :
    MatchAcc q known t (uniquePids known)
      ((uniquePids known).foldl (matchStep q known t) (none, t)) := by
  have hinit : MatchAcc q known t [] ((none : Option ℤ), t) := by
    constructor
    · intro _; exact ⟨rfl, by simp⟩
    · intro p hp; simp at hp
  have hres := matchFold_acc q known t (uniquePids known) [] (none, t) hinit
    (by simp) (uniquePids_sorted known)
  simpa using hres

lemma find_best_match_eq_fold {q : List ℝ} {known : List (ℤ × List ℝ)} {t : ℝ}
    (hq : norm2 q ≠ 0) (hk : known ≠ []) :
    find_best_match (some q) known t
      = ((uniquePids known).foldl (matchStep q known t) (none, t)).1 := by
  cases known with
  | nil => exact absurd rfl hk
  | cons k0 krest =>
    show (if norm2 q = 0 then none
      else ((uniquePids (k0 :: krest)).foldl (matchStep q (k0 :: krest) t) (none, t)).1) = _
    rw [if_neg hq]

/-! ## Unit-vector evaluation helpers -/

lemma norm2_unit_x : norm2 [(1 : ℝ), 0] = 1 := by rw [norm2_pair]; norm_num

lemma norm2_unit_y : norm2 [(0 : ℝ), 1] = 1 := by rw [norm2_pair]; norm_num

lemma rowNormalize_unit_x : rowNormalize [(1 : ℝ), 0] = [1, 0] := by
  rw [rowNormalize_pair_of_ne (by rw [norm2_unit_x]; norm_num), norm2_unit_x]
  norm_num

lemma rowNormalize_unit_y : rowNormalize [(0 : ℝ), 1] = [0, 1] := by
  rw [rowNormalize_pair_of_ne (by rw [norm2_unit_y]; norm_num), norm2_unit_y]
  norm_num

lemma qNormalize_unit_x : qNormalize [(1 : ℝ), 0] = [1, 0] := by
  show [(1 : ℝ) / norm2 [(1 : ℝ), 0], (0 : ℝ) / norm2 [(1 : ℝ), 0]] = [1, 0]
  rw [norm2_unit_x]
  norm_num

lemma qNormalize_unit_y : qNormalize [(0 : ℝ), 1] = [0, 1] := by
  show [(0 : ℝ) / norm2 [(0 : ℝ), 1], (1 : ℝ) / norm2 [(0 : ℝ), 1]] = [0, 1]
  rw [norm2_unit_y]
  norm_num

/-! ## C6: the winner is the surviving identity with the smallest minimum -/

/-- C6: whenever `find_best_match` returns an identity, that identity survived
the majority-support filter, its minimum distance is strictly below the
threshold and is the smallest among all surviving identities; and whenever
every identity's best sample is at distance at least the threshold, the result
is `none`. -/
theorem c6_smallest_surviving_min_under_threshold (q : List ℝ)
    (known : List (ℤ × List ℝ)) (t : ℝ) :
    (∀ p, find_best_match (some q) known t = some p →
      ¬ voteRejected q known t p ∧ p ∈ uniquePids known ∧ minDist q known p < t ∧
        ∀ p2 ∈ uniquePids known, ¬ voteRejected q known t p2 →
          minDist q known p ≤ minDist q known p2) ∧
    ((∀ p2 ∈ uniquePids known, t ≤ minDist q known p2) →
      find_best_match (some q) known t = none) := by
  constructor
  · intro p hp
    cases known with
    | nil => simp [find_best_match] at hp
    | cons k0 kr =>
      by_cases hq : norm2 q = 0
      · rw [show find_best_match (some q) (k0 :: kr) t
            = (if norm2 q = 0 then none
               else ((uniquePids (k0 :: kr)).foldl (matchStep q (k0 :: kr) t) (none, t)).1)
          from rfl, if_pos hq] at hp
        simp at hp
      · rw [find_best_match_eq_fold hq (by simp)] at hp
        obtain ⟨h1, h2, h3, h4, h5, _⟩ := (matchFold_result q (k0 :: kr) t).2 p hp
        exact ⟨h1, h2, h3 ▸ h4, fun p2 hp2 hs2 => h3 ▸ h5 p2 hp2 hs2⟩
  · intro hall
    cases known with
    | nil => simp [find_best_match]
    | cons k0 kr =>
      by_cases hq : norm2 q = 0
      · rw [show find_best_match (some q) (k0 :: kr) t
            = (if norm2 q = 0 then none
               else ((uniquePids (k0 :: kr)).foldl (matchStep q (k0 :: kr) t) (none, t)).1)
          from rfl, if_pos hq]
      · rw [find_best_match_eq_fold hq (by simp)]
        rcases hopt : ((uniquePids (k0 :: kr)).foldl
            (matchStep q (k0 :: kr) t) (none, t)).1 with _ | p
        · rfl
        · exfalso
          obtain ⟨_, h2, h3, h4, _, _⟩ := (matchFold_result q (k0 :: kr) t).2 p hopt
          have h5 := hall p h2
          rw [← h3] at h5
          exact absurd h4 (not_lt.2 h5)

/-- Witness for C6 at a query orthogonal to the only known sample. -/
theorem c6_smallest_surviving_min_under_threshold_witness :
    find_best_match (some [0, 1]) [((1 : ℤ), [1, 0])] (1/2) = none := by
  apply (c6_smallest_surviving_min_under_threshold [0, 1] [((1 : ℤ), [1, 0])] (1/2)).2
  intro p2 hp2
  have hup : uniquePids [((1 : ℤ), [1, 0])] = [1] := by
    show (([((1 : ℤ), [(1 : ℝ), 0])].map Prod.fst).toFinset).sort (fun a b => a ≤ b) = [1]
    rw [show ([((1 : ℤ), [(1 : ℝ), 0])].map Prod.fst).toFinset = {1} from rfl]
    exact Finset.sort_singleton _ 1
  rw [hup] at hp2
  have hp1 : p2 = 1 := by simpa using hp2
  subst hp1
  have hmd : minDist [0, 1] [((1 : ℤ), [1, 0])] 1 = 1 := by
    show listMin (personDists [0, 1] [((1 : ℤ), [1, 0])] 1) = 1
    rw [show personDists [0, 1] [((1 : ℤ), [1, 0])] 1
        = [1 - dot (rowNormalize [1, 0]) (qNormalize [0, 1])] from rfl]
    rw [rowNormalize_unit_x, qNormalize_unit_y]
    show 1 - dot [(1 : ℝ), 0] [0, 1] = 1
    rw [dot_pair]
    norm_num
  rw [hmd]
  norm_num

/-! ## C1: the majority-support filter, with the 5-sample scenario -/

/-- Scenario data for C1: identity 1 has five reference samples, one equal to
the query direction `[1, 0]` and four orthogonal to it. -/
def knownFive : List (ℤ × List ℝ) :=
  [(1, [1, 0]), (1, [0, 1]), (1, [0, 1]), (1, [0, 1]), (1, [0, 1])]

lemma knownFive_personDists : personDists [1, 0] knownFive 1 = [0, 1, 1, 1, 1] := by
  show ((distList [1, 0] knownFive).filter fun de => decide (de.1 = 1)).map Prod.snd
    = [0, 1, 1, 1, 1]
  rw [show distList [1, 0] knownFive
      = [(1, 1 - dot (rowNormalize [1, 0]) (qNormalize [1, 0])),
         (1, 1 - dot (rowNormalize [0, 1]) (qNormalize [1, 0])),
         (1, 1 - dot (rowNormalize [0, 1]) (qNormalize [1, 0])),
         (1, 1 - dot (rowNormalize [0, 1]) (qNormalize [1, 0])),
         (1, 1 - dot (rowNormalize [0, 1]) (qNormalize [1, 0]))] from rfl]
  rw [rowNormalize_unit_x, rowNormalize_unit_y, qNormalize_unit_x]
  rw [show (1 : ℝ) - dot [1, 0] [1, 0] = 0 by rw [dot_pair]; norm_num]
  rw [show (1 : ℝ) - dot [0, 1] [1, 0] = 1 by rw [dot_pair]; norm_num]
  rfl

lemma knownFive_minDist : minDist [1, 0] knownFive 1 = 0 := by
  show listMin (personDists [1, 0] knownFive 1) = 0
  rw [knownFive_personDists]
  show List.foldl min (0 : ℝ) [1, 1, 1, 1] = 0
  rw [List.foldl_cons, show min (0 : ℝ) 1 = 0 from min_eq_left (by norm_num)]
  rw [List.foldl_cons, show min (0 : ℝ) 1 = 0 from min_eq_left (by norm_num)]
  rw [List.foldl_cons, show min (0 : ℝ) 1 = 0 from min_eq_left (by norm_num)]
  rw [List.foldl_cons, show min (0 : ℝ) 1 = 0 from min_eq_left (by norm_num)]
  rfl

lemma knownFive_totalCount : totalCount [1, 0] knownFive 1 = 5 := by
  show (personDists [1, 0] knownFive 1).length = 5
  rw [knownFive_personDists]
  rfl

lemma knownFive_closeCount : closeCount [1, 0] knownFive (1/2) 1 = 1 := by
  show ((personDists [1, 0] knownFive 1).filter
      fun d => decide (d < voteThreshold (1/2))).length = 1
  rw [knownFive_personDists]
  have hvt : voteThreshold ((1 : ℝ)/2) = 0.8 := by
    show min ((1 : ℝ)/2 * 2) 0.8 = 0.8
    norm_num
  rw [hvt]
  rw [List.filter_cons, List.filter_cons, List.filter_cons, List.filter_cons,
    List.filter_cons, List.filter_nil]
  rw [show (decide ((0 : ℝ) < 0.8)) = true from decide_eq_true (by norm_num)]
  rw [show (decide ((1 : ℝ) < 0.8)) = false from decide_eq_false (by norm_num)]
  simp

lemma knownFive_rejected : voteRejected [1, 0] knownFive (1/2) 1 := by
  constructor
  · rw [knownFive_totalCount]
    omega
  · rw [knownFive_closeCount, knownFive_totalCount]
    norm_num

lemma knownFive_uniquePids : uniquePids knownFive = [1] := by
  show ((knownFive.map Prod.fst).toFinset).sort (fun a b => a ≤ b) = [1]
  rw [show (knownFive.map Prod.fst).toFinset = {1} from rfl]
  exact Finset.sort_singleton _ 1

/-- C1: the majority-support filter is applied exactly as specified — an
identity with at least 3 samples and a close fraction strictly below 0.30 can
never be the returned match, identities with fewer than 3 samples are never
rejected by the filter, and in the 5-sample scenario (1 sample at distance 0,
4 at distance 1, threshold 0.5) the single close sample is within threshold
yet the match is `none`. -/
theorem c1_majority_support_filter (q : List ℝ) (known : List (ℤ × List ℝ))
    (t : ℝ) (pid : ℤ) :
    (voteRejected q known t pid → find_best_match (some q) known t ≠ some pid) ∧
    (totalCount q known pid < 3 → ¬ voteRejected q known t pid) ∧
    minDist [1, 0] knownFive 1 < 1/2 ∧
    find_best_match (some [1, 0]) knownFive (1/2) = none := by
  refine ⟨?_, ?_, ?_, ?_⟩
  · intro hrej hres
    cases known with
    | nil => simp [find_best_match] at hres
    | cons k0 kr =>
      by_cases hq : norm2 q = 0
      · rw [show find_best_match (some q) (k0 :: kr) t
            = (if norm2 q = 0 then none
               else ((uniquePids (k0 :: kr)).foldl (matchStep q (k0 :: kr) t) (none, t)).1)
          from rfl, if_pos hq] at hres
        simp at hres
      · rw [find_best_match_eq_fold hq (by simp)] at hres
        exact absurd hrej ((matchFold_result q (k0 :: kr) t).2 pid hres).1
  · intro hcnt hrej
    exact absurd hrej.1 (by omega)
  · rw [knownFive_minDist]
    norm_num
  · have hq : norm2 [(1 : ℝ), 0] ≠ 0 := by rw [norm2_unit_x]; norm_num
    rw [find_best_match_eq_fold hq (by simp [knownFive])]
    rcases hopt : ((uniquePids knownFive).foldl
        (matchStep [1, 0] knownFive (1/2)) (none, 1/2)).1 with _ | p
    · rfl
    · exfalso
      have h := (matchFold_result [1, 0] knownFive (1/2)).2 p hopt
      have hpu := h.2.1
      rw [knownFive_uniquePids] at hpu
      have hp1 : p = 1 := by simpa using hpu
      subst hp1
      exact h.1 knownFive_rejected

/-- Witness for C1 at the 5-sample scenario: identity 1 is vote-rejected and
cannot be returned; identity 2 (absent, hence 0 samples) is not rejected. -/
theorem c1_majority_support_filter_witness :
    find_best_match (some [1, 0]) knownFive (1/2) ≠ some 1 ∧
    ¬ voteRejected [1, 0] knownFive (1/2) 2 := by
  constructor
  · exact (c1_majority_support_filter [1, 0] knownFive (1/2) 1).1 knownFive_rejected
  · refine (c1_majority_support_filter [1, 0] knownFive (1/2) 2).2.1 ?_
    rw [show totalCount [1, 0] knownFive 2 = 0 from rfl]
    omega

/-- Witness for C10: the empty- and singleton-input conjuncts at concrete
inputs. -/
theorem c10_cluster_embeddings_partition_witness :
    cluster_embeddings [] 1 = [] ∧ cluster_embeddings [[1, 0]] 1 = [[0]] :=
  ⟨(c10_cluster_embeddings_partition [] 1).2.2.1 rfl,
   (c10_cluster_embeddings_partition [[1, 0]] 1).2.2.2 [1, 0] rfl⟩

/-! ## Order independence of `find_best_match` over the known list -/

lemma personDists_perm {known known' : List (ℤ × List ℝ)} (h : known.Perm known')
    (q : List ℝ) (pid : ℤ) :
    (personDists q known pid).Perm (personDists q known' pid) :=
  ((h.map _).filter _).map _

lemma minDist_perm {known known' : List (ℤ × List ℝ)} (h : known.Perm known')
    (q : List ℝ) (pid : ℤ) : minDist q known pid = minDist q known' pid :=
  listMin_perm (personDists_perm h q pid)

lemma totalCount_perm {known known' : List (ℤ × List ℝ)} (h : known.Perm known')
    (q : List ℝ) (pid : ℤ) : totalCount q known pid = totalCount q known' pid :=
  (personDists_perm h q pid).length_eq

lemma closeCount_perm {known known' : List (ℤ × List ℝ)} (h : known.Perm known')
    (q : List ℝ) (t : ℝ) (pid : ℤ) :
    closeCount q known t pid = closeCount q known' t pid :=
  ((personDists_perm h q pid).filter _).length_eq

lemma voteRejected_perm {known known' : List (ℤ × List ℝ)} (h : known.Perm known')
    (q : List ℝ) (t : ℝ) (pid : ℤ) :
    voteRejected q known t pid ↔ voteRejected q known' t pid := by
  unfold voteRejected
  rw [totalCount_perm h q pid, closeCount_perm h q t pid]

lemma uniquePids_perm {known known' : List (ℤ × List ℝ)} (h : known.Perm known') :
    uniquePids known = uniquePids known' := by
  unfold uniquePids
  rw [List.toFinset_eq_of_perm _ _ (h.map Prod.fst)]

open Classical in
lemma matchStep_perm {known known' : List (ℤ × List ℝ)} (h : known.Perm known')
    (q : List ℝ) (t : ℝ) : matchStep q known t = matchStep q known' t := by
  funext best pid
  unfold matchStep
  rw [minDist_perm h q pid]
  exact if_congr (voteRejected_perm h q t pid) rfl rfl

lemma find_best_match_perm {known known' : List (ℤ × List ℝ)} (h : known.Perm known')
    (q : List ℝ) (t : ℝ) :
    find_best_match (some q) known t = find_best_match (some q) known' t := by
  cases hk : known with
  | nil =>
    have hk' : known' = [] := (List.Perm.symm (hk ▸ h)).eq_nil
    rw [hk']
  | cons k0 kr =>
    have hk' : known' ≠ [] := by
      intro hc
      rw [hc] at h
      rw [h.eq_nil] at hk
      exact List.noConfusion hk
    rw [← hk]
    by_cases hq : norm2 q = 0
    · cases hkc : known' with
      | nil => exact absurd hkc hk'
      | cons k1 kr' =>
        rw [hk]
        show (if norm2 q = 0 then none
          else ((uniquePids (k0 :: kr)).foldl (matchStep q (k0 :: kr) t) (none, t)).1)
          = (if norm2 q = 0 then none
          else ((uniquePids (k1 :: kr')).foldl (matchStep q (k1 :: kr') t) (none, t)).1)
        rw [if_pos hq, if_pos hq]
    · rw [find_best_match_eq_fold hq (by rw [hk]; exact List.cons_ne_nil k0 kr),
        find_best_match_eq_fold hq hk']
      rw [uniquePids_perm h, matchStep_perm h q t]

/-- C9: if two distinct surviving identities tie at the (surviving-)minimal
distance strictly below the threshold, `find_best_match` is deterministic and
returns the lowest identity id among the tied ones, and the result is the same
on every reordering of the known list (`np.unique` sorts the person ids). -/
theorem c9_tie_break_lowest_id (q : List ℝ) (known known' : List (ℤ × List ℝ))
    (t : ℝ) (p1 p2 : ℤ)
    (hperm : known.Perm known')
    (hq : norm2 q ≠ 0)
    (hne : p1 ≠ p2)
    (hp1 : p1 ∈ uniquePids known) (hp2 : p2 ∈ uniquePids known)
    (hs1 : ¬ voteRejected q known t p1) (hs2 : ¬ voteRejected q known t p2)
    (heq : minDist q known p1 = minDist q known p2)
    (hlt : minDist q known p1 < t)
    (hmin : ∀ p ∈ uniquePids known, ¬ voteRejected q known t p →
      minDist q known p1 ≤ minDist q known p) :
    ∃ p, find_best_match (some q) known' t = some p ∧
      p ∈ uniquePids known ∧ ¬ voteRejected q known t p ∧
      minDist q known p = minDist q known p1 ∧
      (∀ p3 ∈ uniquePids known, ¬ voteRejected q known t p3 →
        minDist q known p3 = minDist q known p1 → p ≤ p3) := by
  have hknil : known ≠ [] := by
    intro hc
    rw [hc] at hp1
    simp [uniquePids] at hp1
  rw [← find_best_match_perm hperm q t]
  rw [find_best_match_eq_fold hq hknil]
  rcases hopt : ((uniquePids known).foldl (matchStep q known t) (none, t)).1 with _ | p
  · exfalso
    have h := ((matchFold_result q known t).1 hopt).2 p1 hp1 hs1
    exact absurd hlt (not_lt.2 h)
  · obtain ⟨h1, h2, h3, _, h5, h6⟩ := (matchFold_result q known t).2 p hopt
    have hple : minDist q known p ≤ minDist q known p1 := h3 ▸ h5 p1 hp1 hs1
    have hpge : minDist q known p1 ≤ minDist q known p := hmin p h2 h1
    have hpeq : minDist q known p = minDist q known p1 := le_antisymm hple hpge
    refine ⟨p, rfl, h2, h1, hpeq, ?_⟩
    intro p3 hp3 hs3 hmd3
    exact h6 p3 hp3 hs3 (by rw [hmd3, ← hpeq, h3])

lemma uniquePids_eq_of_mem_iff (known : List (ℤ × List ℝ)) (l : List ℤ)
    (hsor : l.Pairwise (fun a b => a < b))
    (hmem : ∀ x, x ∈ known.map Prod.fst ↔ x ∈ l) : uniquePids known = l := by
  haveI : IsAntisymm ℤ (fun a b => a < b) :=
    ⟨fun a b h1 h2 => absurd h1 (asymm h2)⟩
  refine List.eq_of_perm_of_sorted ?_ (uniquePids_sorted known) hsor
  refine (List.perm_ext_iff_of_nodup (Finset.sort_nodup _ _) ?_).2 ?_
  · exact hsor.imp ne_of_lt
  · intro x
    rw [Finset.mem_sort, List.mem_toFinset]
    exact hmem x

/-- Scenario data for C9: identities 1 and 2 tie with identical best samples
equal to the query direction; identity 3 is orthogonal. -/
def knownTie : List (ℤ × List ℝ) := [(1, [1, 0]), (2, [1, 0]), (3, [0, 1])]

lemma knownTie_uniquePids : uniquePids knownTie = [1, 2, 3] := by
  refine uniquePids_eq_of_mem_iff knownTie [1, 2, 3] (by decide) ?_
  intro x
  rw [show knownTie.map Prod.fst = [1, 2, 3] from rfl]

lemma knownTie_distList : distList [1, 0] knownTie
    = [(1, 0), (2, 0), (3, 1)] := by
  rw [show distList [1, 0] knownTie
      = [(1, 1 - dot (rowNormalize [1, 0]) (qNormalize [1, 0])),
         (2, 1 - dot (rowNormalize [1, 0]) (qNormalize [1, 0])),
         (3, 1 - dot (rowNormalize [0, 1]) (qNormalize [1, 0]))] from rfl]
  rw [rowNormalize_unit_x, rowNormalize_unit_y, qNormalize_unit_x]
  rw [show (1 : ℝ) - dot [1, 0] [1, 0] = 0 by rw [dot_pair]; norm_num]
  rw [show (1 : ℝ) - dot [0, 1] [1, 0] = 1 by rw [dot_pair]; norm_num]

lemma knownTie_minDist_one : minDist [1, 0] knownTie 1 = 0 := by
  show listMin (personDists [1, 0] knownTie 1) = 0
  show listMin (((distList [1, 0] knownTie).filter
    fun de => decide (de.1 = 1)).map Prod.snd) = 0
  rw [knownTie_distList]
  rfl

lemma knownTie_minDist_two : minDist [1, 0] knownTie 2 = 0 := by
  show listMin (((distList [1, 0] knownTie).filter
    fun de => decide (de.1 = 2)).map Prod.snd) = 0
  rw [knownTie_distList]
  rfl

lemma knownTie_minDist_three : minDist [1, 0] knownTie 3 = 1 := by
  show listMin (((distList [1, 0] knownTie).filter
    fun de => decide (de.1 = 3)).map Prod.snd) = 1
  rw [knownTie_distList]
  rfl

lemma knownTie_not_rejected_one : ¬ voteRejected [1, 0] knownTie (1/2) 1 := by
  intro h
  have h1 := h.1
  rw [show totalCount [1, 0] knownTie 1 = 1 from rfl] at h1
  omega

lemma knownTie_not_rejected_two : ¬ voteRejected [1, 0] knownTie (1/2) 2 := by
  intro h
  have h1 := h.1
  rw [show totalCount [1, 0] knownTie 2 = 1 from rfl] at h1
  omega

/-- Witness for C9: identities 1 and 2 tie at distance 0 for the query
`[1,0]`; the match returns identity 1, the lowest tied id. -/
theorem c9_tie_break_lowest_id_witness :
    find_best_match (some [1, 0]) knownTie (1/2) = some 1 := by
  have hq : norm2 [(1 : ℝ), 0] ≠ 0 := by rw [norm2_unit_x]; norm_num
  have hmin : ∀ p ∈ uniquePids knownTie, ¬ voteRejected [1, 0] knownTie (1/2) p →
      minDist [1, 0] knownTie 1 ≤ minDist [1, 0] knownTie p := by
    intro p hp _
    rw [knownTie_uniquePids] at hp
    have hp3 : p = 1 ∨ p = 2 ∨ p = 3 := by simpa using hp
    rw [knownTie_minDist_one]
    rcases hp3 with h | h | h
    · rw [h, knownTie_minDist_one]
    · rw [h, knownTie_minDist_two]
    · rw [h, knownTie_minDist_three]
      norm_num
  obtain ⟨p, hres, hpmem, _, hpd, htie⟩ :=
    c9_tie_break_lowest_id [1, 0] knownTie knownTie (1/2) 1 2 (List.Perm.refl _) hq
      (by decide)
      (by rw [knownTie_uniquePids]; exact List.mem_cons_self _ _)
      (by rw [knownTie_uniquePids]; exact List.mem_cons.2 (Or.inr (List.mem_cons_self _ _)))
      knownTie_not_rejected_one knownTie_not_rejected_two
      (by rw [knownTie_minDist_one, knownTie_minDist_two])
      (by rw [knownTie_minDist_one]; norm_num)
      hmin
  have hple : p ≤ 1 := htie 1
    (by rw [knownTie_uniquePids]; exact List.mem_cons_self _ _)
    knownTie_not_rejected_one rfl
  have hpge : 1 ≤ p := by
    rw [knownTie_uniquePids] at hpmem
    have hp3 : p = 1 ∨ p = 2 ∨ p = 3 := by simpa using hpmem
    omega
  have hp1 : p = 1 := le_antisymm hple hpge
  rw [hp1] at hres
  exact hres

/-! ## C4: no threshold validation exists in the code -/

lemma cluster_unitXY_of_two_lt {t : ℝ} (h : 2 < t) :
    cluster_embeddings [[1, 0], [0, 1]] t = [[0, 1]] := by
  have hd : 1 - dot [(1 : ℝ), 0] [0, 1] < t := by
    rw [dot_pair]
    have h1 : (1 : ℝ) - (1 * 0 + 0 * 1) = 1 := by norm_num
    rw [h1]
    linarith
  show ((([[(1 : ℝ), 0], [0, 1]]).map rowNormalize).enum.foldl
    (clusterStep t) ([], [])).1 = [[0, 1]]
  rw [List.map_cons, List.map_cons, List.map_nil, rowNormalize_unit_x, rowNormalize_unit_y]
  rw [show ([[(1 : ℝ), 0], [0, 1]]).enum = [(0, [(1 : ℝ), 0]), (1, [0, 1])] from rfl]
  rw [List.foldl_cons, List.foldl_cons, List.foldl_nil]
  rw [show clusterStep t ([], []) (0, [(1 : ℝ), 0]) = ([[0]], [[1, 0]]) from rfl]
  rw [clusterStep_single_lt [0] [1, 0] [0, 1] 1 hd]
  rfl

lemma cluster_unitXX_of_neg {t : ℝ} (h : t < 0) :
    cluster_embeddings [[1, 0], [1, 0]] t = [[0], [1]] := by
  have hd : ¬ (1 - dot [(1 : ℝ), 0] [1, 0] < t) := by
    rw [dot_pair]
    have h1 : (1 : ℝ) - (1 * 1 + 0 * 0) = 0 := by norm_num
    rw [h1]
    linarith
  show ((([[(1 : ℝ), 0], [1, 0]]).map rowNormalize).enum.foldl
    (clusterStep t) ([], [])).1 = [[0], [1]]
  rw [List.map_cons, List.map_cons, List.map_nil, rowNormalize_unit_x]
  rw [show ([[(1 : ℝ), 0], [1, 0]]).enum = [(0, [(1 : ℝ), 0]), (1, [1, 0])] from rfl]
  rw [List.foldl_cons, List.foldl_cons, List.foldl_nil]
  rw [show clusterStep t ([], []) (0, [(1 : ℝ), 0]) = ([[0]], [[1, 0]]) from rfl]
  rw [clusterStep_single_ge [[0]] [1, 0] [1, 0] 1 hd]
  rfl

lemma match_unitXY_of_two_lt {t : ℝ} (h : 2 < t) :
    find_best_match (some [1, 0]) [((1 : ℤ), [0, 1])] t = some 1 := by
  have hq : norm2 [(1 : ℝ), 0] ≠ 0 := by rw [norm2_unit_x]; norm_num
  rw [find_best_match_eq_fold hq (by simp)]
  have hup : uniquePids [((1 : ℤ), [0, 1])] = [1] := by
    show (([((1 : ℤ), [(0 : ℝ), 1])].map Prod.fst).toFinset).sort (fun a b => a ≤ b) = [1]
    rw [show ([((1 : ℤ), [(0 : ℝ), 1])].map Prod.fst).toFinset = {1} from rfl]
    exact Finset.sort_singleton _ 1
  rw [hup, List.foldl_cons, List.foldl_nil]
  have hmd : minDist [1, 0] [((1 : ℤ), [0, 1])] 1 = 1 := by
    show listMin (personDists [1, 0] [((1 : ℤ), [0, 1])] 1) = 1
    rw [show personDists [1, 0] [((1 : ℤ), [0, 1])] 1
        = [1 - dot (rowNormalize [0, 1]) (qNormalize [1, 0])] from rfl]
    rw [rowNormalize_unit_y, qNormalize_unit_x]
    show 1 - dot [(0 : ℝ), 1] [1, 0] = 1
    rw [dot_pair]
    norm_num
  have hrej : ¬ voteRejected [1, 0] [((1 : ℤ), [0, 1])] t 1 := by
    intro hv
    have h1 := hv.1
    rw [show totalCount [1, 0] [((1 : ℤ), [0, 1])] 1 = 1 from rfl] at h1
    omega
  have hlt : minDist [1, 0] [((1 : ℤ), [0, 1])] 1 < ((none : Option ℤ), t).2 := by
    rw [hmd]
    show (1 : ℝ) < t
    linarith
  rw [matchStep, if_neg hrej, if_pos hlt]

lemma match_unitXX_of_neg {t : ℝ} (h : t < 0) :
    find_best_match (some [1, 0]) [((1 : ℤ), [1, 0])] t = none := by
  have hq : norm2 [(1 : ℝ), 0] ≠ 0 := by rw [norm2_unit_x]; norm_num
  rw [find_best_match_eq_fold hq (by simp)]
  have hup : uniquePids [((1 : ℤ), [1, 0])] = [1] := by
    show (([((1 : ℤ), [(1 : ℝ), 0])].map Prod.fst).toFinset).sort (fun a b => a ≤ b) = [1]
    rw [show ([((1 : ℤ), [(1 : ℝ), 0])].map Prod.fst).toFinset = {1} from rfl]
    exact Finset.sort_singleton _ 1
  rw [hup, List.foldl_cons, List.foldl_nil]
  have hmd : minDist [1, 0] [((1 : ℤ), [1, 0])] 1 = 0 := by
    show listMin (personDists [1, 0] [((1 : ℤ), [1, 0])] 1) = 0
    rw [show personDists [1, 0] [((1 : ℤ), [1, 0])] 1
        = [1 - dot (rowNormalize [1, 0]) (qNormalize [1, 0])] from rfl]
    rw [rowNormalize_unit_x, qNormalize_unit_x]
    show 1 - dot [(1 : ℝ), 0] [1, 0] = 0
    rw [dot_pair]
    norm_num
  have hrej : ¬ voteRejected [1, 0] [((1 : ℤ), [1, 0])] t 1 := by
    intro hv
    have h1 := hv.1
    rw [show totalCount [1, 0] [((1 : ℤ), [1, 0])] 1 = 1 from rfl] at h1
    omega
  have hlt : ¬ (minDist [1, 0] [((1 : ℤ), [1, 0])] 1 < ((none : Option ℤ), t).2) := by
    rw [hmd]
    show ¬ ((0 : ℝ) < t)
    linarith
  rw [matchStep, if_neg hrej, if_neg hlt]

/-- C4 counterexample: with the invalid threshold `3` (outside `[0, 2]`) both
`cluster_embeddings` and `find_best_match` do not abort — they return ordinary
results computed from the invalid threshold (two orthogonal embeddings are
merged, and an orthogonal sample at distance 1 is reported as a match). -/
theorem c4_counterexample_no_failfast :
    cluster_embeddings [[1, 0], [0, 1]] 3 = [[0, 1]] ∧
    find_best_match (some [1, 0]) [((1 : ℤ), [0, 1])] 3 = some 1 :=
  ⟨cluster_unitXY_of_two_lt (by norm_num), match_unitXY_of_two_lt (by norm_num)⟩

/-- C4 (amended): neither function validates the threshold; a call with a
threshold outside `[0, 2]` proceeds and returns a result computed from the
invalid value — every threshold above 2 merges the two orthogonal unit vectors
into one cluster and matches an orthogonal sample, and every negative
threshold splits two identical vectors and rejects an identical sample. -/
theorem c4_amended_no_threshold_validation (t : ℝ) :
    (2 < t → cluster_embeddings [[1, 0], [0, 1]] t = [[0, 1]] ∧
      find_best_match (some [1, 0]) [((1 : ℤ), [0, 1])] t = some 1) ∧
    (t < 0 → cluster_embeddings [[1, 0], [1, 0]] t = [[0], [1]] ∧
      find_best_match (some [1, 0]) [((1 : ℤ), [1, 0])] t = none) :=
  ⟨fun h => ⟨cluster_unitXY_of_two_lt h, match_unitXY_of_two_lt h⟩,
   fun h => ⟨cluster_unitXX_of_neg h, match_unitXX_of_neg h⟩⟩

/-- Witness for the amended C4 at the invalid thresholds `3` and `-1`. -/
theorem c4_amended_no_threshold_validation_witness :
    (cluster_embeddings [[1, 0], [1, 0]] (-1) = [[0], [1]] ∧
      find_best_match (some [1, 0]) [((1 : ℤ), [1, 0])] (-1) = none) ∧
    find_best_match (some [1, 0]) [((1 : ℤ), [0, 1])] 5 = some 1 :=
  ⟨(c4_amended_no_threshold_validation (-1)).2 (by norm_num),
   ((c4_amended_no_threshold_validation 5).1 (by norm_num)).2⟩

/-! ## C5: every face is linked to at most one identity in reachable states -/

/-- Auxiliary invariant: every existing face id is below the autoincrement
counter, every mapping refers to an existing face, and the mapping relation is
functional in the face. -/
def DBInv (s : DBState) : Prop :=
  (∀ f ∈ s.faces, f < s.nextFaceId) ∧
  (∀ m ∈ s.mappings, m.2 ∈ s.faces) ∧
  (∀ m1 ∈ s.mappings, ∀ m2 ∈ s.mappings, m1.2 = m2.2 → m1.1 = m2.1)

lemma dbinv_unmapFace {s : DBState} {f : ℕ} (h : DBInv s) : DBInv (unmapFace f s) := by
  obtain ⟨h1, h2, h3⟩ := h
  refine ⟨h1, ?_, ?_⟩
  · intro m hm
    exact h2 m (Finset.mem_of_mem_filter m hm)
  · intro m1 hm1 m2 hm2 he
    exact h3 m1 (Finset.mem_of_mem_filter m1 hm1) m2 (Finset.mem_of_mem_filter m2 hm2) he

lemma dbinv_deleteFace {s : DBState} {f : ℕ} (h : DBInv s) : DBInv (deleteFace f s) := by
  obtain ⟨h1, h2, h3⟩ := h
  refine ⟨?_, ?_, ?_⟩
  · intro g hg
    exact h1 g (Finset.mem_of_mem_erase hg)
  · intro m hm
    have hm2 := Finset.mem_filter.1 hm
    exact Finset.mem_erase.2 ⟨hm2.2, h2 m hm2.1⟩
  · intro m1 hm1 m2 hm2 he
    exact h3 m1 (Finset.mem_of_mem_filter m1 hm1) m2 (Finset.mem_of_mem_filter m2 hm2) he

lemma dbinv_mapFace_fresh {s : DBState} {p f : ℕ} (h : DBInv s) (hf : f ∈ s.faces)
    (hno : ∀ q, (q, f) ∉ s.mappings) : DBInv (mapFaceToPerson p f s) := by
  obtain ⟨h1, h2, h3⟩ := h
  refine ⟨h1, ?_, ?_⟩
  · intro m hm
    rcases Finset.mem_insert.1 hm with hh | hh
    · rw [hh]; exact hf
    · exact h2 m hh
  · intro m1 hm1 m2 hm2 he
    rcases Finset.mem_insert.1 hm1 with ha | ha <;> rcases Finset.mem_insert.1 hm2 with hb | hb
    · rw [ha, hb]
    · exfalso
      rw [ha] at he
      have he2 : f = m2.2 := he
      refine hno m2.1 ?_
      rw [show ((m2.1 : ℕ), f) = m2 from by rw [he2]]
      exact hb
    · exfalso
      rw [hb] at he
      have he2 : m1.2 = f := he
      refine hno m1.1 ?_
      rw [show ((m1.1 : ℕ), f) = m1 from by rw [← he2]]
      exact ha
    · exact h3 m1 ha m2 hb he

lemma dbinv_assignFaces {p : ℕ} {fids : List ℕ} :
    ∀ {s : DBState}, DBInv s → (∀ f ∈ fids, f ∈ s.faces) →
      DBInv (assignFaces p fids s) := by
  induction fids with
  | nil => intro s h _; exact h
  | cons f fs ih =>
    intro s h hf
    show DBInv (assignFaces p fs (mapFaceToPerson p f (unmapFace f s)))
    apply ih
    · refine dbinv_mapFace_fresh (dbinv_unmapFace h) (hf f (List.mem_cons_self f fs)) ?_
      intro q hq
      exact absurd rfl (Finset.mem_filter.1 hq).2
    · intro g hg
      exact hf g (List.mem_cons.2 (Or.inr hg))

lemma dbinv_insertFace {s : DBState} (h : DBInv s) : DBInv (insertFace s).1 := by
  obtain ⟨h1, h2, h3⟩ := h
  refine ⟨?_, ?_, h3⟩
  · intro f hf
    show f < s.nextFaceId + 1
    rcases Finset.mem_insert.1 hf with hh | hh
    · omega
    · exact Nat.lt_succ_of_lt (h1 f hh)
  · intro m hm
    exact Finset.mem_insert.2 (Or.inr (h2 m hm))

lemma dbinv_scanDetectFace {s : DBState} {matched : Option ℕ} (h : DBInv s) :
    DBInv (scanDetectFace matched s) := by
  cases matched with
  | none => exact dbinv_insertFace h
  | some p =>
    show DBInv (mapFaceToPerson p s.nextFaceId (insertFace s).1)
    refine dbinv_mapFace_fresh (dbinv_insertFace h) (Finset.mem_insert_self _ _) ?_
    intro q hq
    have h4 : (q, s.nextFaceId).2 ∈ s.faces := h.2.1 _ hq
    have h5 := h.1 _ h4
    omega

lemma dbinv_autoMatchFaces : ∀ (l : List (ℕ × Option ℕ)) {s : DBState}, DBInv s →
    (∀ fm ∈ l, fm.1 ∈ s.faces) →
    (∀ fm ∈ l, ∀ q, (q, fm.1) ∉ s.mappings) →
    (l.map Prod.fst).Nodup →
    DBInv (autoMatchFaces l s) := by
  intro l
  induction l with
  | nil => intro s h _ _ _; exact h
  | cons fm fs ih =>
    obtain ⟨f, mo⟩ := fm
    intro s h hface hun hnd
    have hndtail : (fs.map Prod.fst).Nodup := (List.nodup_cons.1 hnd).2
    have hfnotin : f ∉ fs.map Prod.fst := (List.nodup_cons.1 hnd).1
    cases mo with
    | none =>
      show DBInv (autoMatchFaces fs s)
      refine ih h ?_ ?_ hndtail
      · intro gm hg; exact hface gm (List.mem_cons.2 (Or.inr hg))
      · intro gm hg; exact hun gm (List.mem_cons.2 (Or.inr hg))
    | some p =>
      show DBInv (autoMatchFaces fs (mapFaceToPerson p f s))
      refine ih ?_ ?_ ?_ hndtail
      · exact dbinv_mapFace_fresh h (hface (f, some p) (List.mem_cons_self _ _))
          (hun (f, some p) (List.mem_cons_self _ _))
      · intro gm hg
        exact hface gm (List.mem_cons.2 (Or.inr hg))
      · intro gm hg q hc
        rcases Finset.mem_insert.1 hc with hc1 | hc1
        · have hgf : gm.1 = f := congrArg Prod.snd hc1
          exact hfnotin (hgf ▸ List.mem_map_of_mem Prod.fst hg)
        · exact hun gm (List.mem_cons.2 (Or.inr hg)) q hc1

lemma dbinv_reachable {s : DBState} (h : DBReachable s) : DBInv s := by
  induction h with
  | init =>
    refine ⟨?_, ?_, ?_⟩ <;> intro x hx <;> simp [initState] at hx
  | step ha hstep ih =>
    cases hstep with
    | scanFace m => exact dbinv_scanDetectFace ih
    | assign p fids hf => exact dbinv_assignFaces ih hf
    | autoMatch l hnd hface hun => exact dbinv_autoMatchFaces l ih hface hun hnd
    | unmap f => exact dbinv_unmapFace ih
    | delete f => exact dbinv_deleteFace ih

lemma assignFaces_face_prop (p f : ℕ) : ∀ (fids : List ℕ) (s : DBState),
    (∀ q, (q, f) ∈ s.mappings → q = p) →
    ∀ q, (q, f) ∈ (assignFaces p fids s).mappings → q = p := by
  intro fids
  induction fids with
  | nil => intro s h; exact h
  | cons g gs ih =>
    intro s h
    apply ih
    intro q hq
    rcases Finset.mem_insert.1 hq with h1 | h1
    · exact congrArg Prod.fst h1
    · exact h q (Finset.mem_of_mem_filter _ h1)

lemma assignFaces_clears (p : ℕ) : ∀ (fids : List ℕ) (s : DBState) (f : ℕ),
    f ∈ fids → ∀ q, (q, f) ∈ (assignFaces p fids s).mappings → q = p := by
  intro fids
  induction fids with
  | nil => intro s f hf; simp at hf
  | cons g gs ih =>
    intro s f hf q hq
    by_cases hfg : f ∈ gs
    · exact ih _ f hfg q hq
    · have hf1 : f = g := by
        rcases List.mem_cons.1 hf with h | h
        · exact h
        · exact absurd h hfg
      subst hf1
      revert q hq
      refine assignFaces_face_prop p f gs _ ?_
      intro q hq
      rcases Finset.mem_insert.1 hq with h1 | h1
      · exact congrArg Prod.fst h1
      · exact absurd rfl (Finset.mem_filter.1 h1).2

/-- C5: in every reachable database state a face is linked to at most one
identity, and the assignment operation (the unmap-then-map loop shared by
`assign_faces_to_person` and `create_person_from_faces`) leaves each assigned
face linked only to the target person — any prior link is cleared. -/
theorem c5_at_most_one_identity_per_face (s : DBState) (hs : DBReachable s) :
    (∀ p1 p2 f, (p1, f) ∈ s.mappings → (p2, f) ∈ s.mappings → p1 = p2) ∧
    (∀ p fids f, f ∈ fids →
      ∀ q, (q, f) ∈ (assignFaces p fids s).mappings → q = p) := by
  constructor
  · intro p1 p2 f h1 h2
    exact (dbinv_reachable hs).2.2 (p1, f) h1 (p2, f) h2 rfl
  · intro p fids f hf q hq
    exact assignFaces_clears p fids s f hf q hq

/-- Witness for C5: a face auto-assigned to identity 5 during a scan and then
reassigned to identity 7 is linked to 7 only, in a concrete reachable state. -/
theorem c5_at_most_one_identity_per_face_witness :
    (7 : ℕ) = 7 ∧
    ((7, 0) : ℕ × ℕ) ∈ (assignFaces 7 [0] (scanDetectFace (some 5) initState)).mappings := by
  have hreach1 : DBReachable (scanDetectFace (some 5) initState) :=
    DBReachable.step DBReachable.init (DBStep.scanFace initState (some 5))
  have hmem : ((7, 0) : ℕ × ℕ)
      ∈ (assignFaces 7 [0] (scanDetectFace (some 5) initState)).mappings := by decide
  have hreach2 : DBReachable (assignFaces 7 [0] (scanDetectFace (some 5) initState)) :=
    DBReachable.step hreach1 (DBStep.assign _ 7 [0] (by decide))
  exact ⟨(c5_at_most_one_identity_per_face _ hreach2).1 7 7 0 hmem hmem, hmem⟩

end FaceGallery
